import Mathlib

/-!
Shallow embedding of the eiproxy client (Go) used to check its natural-language
specification.

Conventions of the embedding:
* Go byte slices are `List Nat`; byte / `uint16` / `uint32` truncations are
  written explicitly as `% 256`, `% 65536`, `% 4294967296`.
* Go bit operations on bytes are translated arithmetically:
  `x >> k` is `x / 2^k`, `x << k` on a byte is `x * 2^k % 256`,
  `x & 0x1F` is `x % 32`, and `a | b` where the two operands occupy disjoint
  bit ranges (as in Go's base32 codec) is written `a + b`.
* Functions that panic or return a Go `error` are modelled with `Option`
  (`none` is the panic / error case) or with explicit result types.

The file is organised as definitions first (framing codec, UserKey / base32,
worker registry, tunnel reader, session retry loop, admission response
handling), then the lemmas and theorems about them.
-/

namespace EIProxy

abbrev Bytes := List Nat

/-! Framing codec (src/protocol/proxy.go, second snapshot, lines 74-108). -/

/-- Model of `net.IP.To4` from Go's net package: a 4-byte slice is returned
as is, a 16-byte slice holding the IPv4-in-IPv6 form (ten zero bytes then
`0xff 0xff`) is unwrapped to its last four bytes, anything else yields
`nil`. -/
def ipTo4 (ip : Bytes) : Option Bytes :=
  if ip.length = 4 then some ip
  else if ip.length = 16 ∧ (∀ b ∈ ip.take 10, b = 0) ∧
      ip.getD 10 0 = 255 ∧ ip.getD 11 0 = 255 then
    some (ip.drop 12)
  else none

/-- Model of `net.IPv4(a, b, c, d)`: the 16-byte IPv4-in-IPv6
representation. -/
def netIPv4 (a b c d : Nat) : Bytes :=
  [0, 0, 0, 0, 0, 0, 0, 0, 0, 0, 255, 255, a, b, c, d]

/-- Model of `net.UDPAddr`: an IP (byte slice) and an `int` port. -/
structure UDPAddr where
  ip : Bytes
  port : Int
deriving Repr, DecidableEq

/-- Go conversion `uint16(p)` of an `int`: two's-complement truncation,
i.e. the mathematical residue mod 2^16. -/
def toUint16 (p : Int) : Nat := (p % 65536).toNat

/-- Model of `binary.LittleEndian.AppendUint16`: appends low byte then high
byte. -/
def appendUint16LE (buf : Bytes) (v : Nat) : Bytes :=
  buf ++ [v % 256, v / 256 % 256]

/-- Constant `protocol.AddrDataMinSize` = 4 (ipv4) + 2 (port) + 1 (min
data). -/
def AddrDataMinSize : Nat := 7

/-- Model of `protocol.EncodeAddrData` (src/protocol/proxy.go lines 85-98):
panics (`none`) when the address is not IPv4 or the payload is empty;
otherwise appends the 4 IPv4 bytes, the little-endian `uint16` port, and the
payload. -/
def EncodeAddrData (buf : Bytes) (addr : UDPAddr) (data : Bytes) : Option Bytes :=
  match ipTo4 addr.ip with
  | none => none
  | some ip4 =>
    if data.length = 0 then none
    else some (appendUint16LE (buf ++ ip4) (toUint16 addr.port) ++ data)

/-- Model of `protocol.DecodeAddrData` (src/protocol/proxy.go lines
100-108): panics (`none`) when the input is shorter than `AddrDataMinSize`;
otherwise returns the address `net.IPv4(data[0], data[1], data[2], data[3])`
with port `binary.LittleEndian.Uint16(data[4:6])` and the payload
`data[6:]`. -/
def DecodeAddrData (data : Bytes) : Option (UDPAddr × Bytes) :=
  if data.length < AddrDataMinSize then none
  else some
    (⟨netIPv4 (data.getD 0 0) (data.getD 1 0) (data.getD 2 0) (data.getD 3 0),
      ((data.getD 4 0 + data.getD 5 0 * 256 : Nat) : Int)⟩,
     data.drop 6)

/-! UserKey and Go standard base32 (src/unnamed/part_003 lines 10-39;
Go encoding/base32 `StdEncoding` with `StdPadding`).

The method `UserKey.String` is `base32.StdEncoding.EncodeToString(k[:])` and
`UserKeyFromString` is `base32.StdEncoding.DecodeString` followed by the
length-10 check; both are modelled below, bytes as `Nat`. -/

/-- The standard base32 alphabet `encodeStd`. -/
def b32alphabet : List Char := "ABCDEFGHIJKLMNOPQRSTUVWXYZ234567".toList

/-- Lookup `enc.encode[v]`: the alphabet character of a 5-bit value. -/
def b32char (v : Nat) : Char := b32alphabet.getD v 'A'

/-- Lookup `enc.decodeMap[c]`: position of `c` in the alphabet, `0xFF` when
absent. -/
def b32decodeMap (c : Char) : Nat :=
  let i := b32alphabet.indexOf c
  if i < 32 then i else 255

/-- One full 5-byte group of Go's base32 `Encode` (the `default` through
`case 1` fallthrough chain), producing the eight 5-bit values `b[0..7]`. -/
def encodeGroup5 (b0 b1 b2 b3 b4 : Nat) : List Nat :=
  [ b0 / 8,
    b0 * 4 % 256 % 32 + b1 / 64 % 32,
    b1 / 2 % 32,
    b1 * 16 % 256 % 32 + b2 / 16 % 32,
    b2 * 2 % 256 % 32 + b3 / 128,
    b3 / 4 % 32,
    b3 * 8 % 256 % 32 + b4 / 32,
    b4 % 32 ]

/-- Go base32 `Encode` restricted to inputs whose length is a multiple of 5
(the only case reachable from `UserKey.String`, whose input is 10 bytes;
partial trailing groups, which Go pads with `=`, are not modelled). -/
def base32EncodeBytes : Bytes → List Nat
  | b0 :: b1 :: b2 :: b3 :: b4 :: rest =>
    encodeGroup5 b0 b1 b2 b3 b4 ++ base32EncodeBytes rest
  | _ => []

/-- Method `UserKey.String`: `base32.StdEncoding.EncodeToString(k[:])`; each
5-bit value is rendered through `enc.encode[b&31]`. -/
def UserKeyString (k : Bytes) : String :=
  String.mk ((base32EncodeBytes k).map (fun v => b32char (v % 32)))

/-- Go `DecodeString` first strips `\r` and `\n` characters. -/
def stripNewlinesList (l : List Char) : List Char :=
  l.filter (fun c => c != '\r' && c != '\n')

/-- The inner `for j := 0; j < 8;` loop of Go's base32 `decode`: reads one
8-character quantum, handling `=` padding exactly as the source does
(`none` is a `CorruptInputError`).  Returns the effective `dlen`, the 5-bit
values, the remaining input and the `end` flag. -/
def b32readBlock (j : Nat) (dbuf : List Nat) (src : List Char) :
    Option (Nat × List Nat × List Char × Bool) :=
  if 8 ≤ j then some (8, dbuf, src, false)
  else
    match src with
    | [] => none
    | c :: rest =>
      if c = '=' ∧ 2 ≤ j ∧ rest.length < 8 then
        if rest.length + j < 7 then none
        else if (List.range (7 - j)).any (fun k => rest.getD k '=' != '=') then none
        else if j = 1 ∨ j = 3 ∨ j = 6 then none
        else some (j, dbuf, rest, true)
      else
        let v := b32decodeMap c
        if v = 255 then none
        else b32readBlock (j + 1) (dbuf ++ [v]) rest

/-- The `switch dlen` fallthrough chain of Go's base32 `decode`, packing the
5-bit values into bytes. -/
def b32pack (dlen : Nat) (d : List Nat) : Bytes :=
  let g := fun i => d.getD i 0
  let o0 := g 0 * 8 % 256 + g 1 / 4
  let o1 := g 1 * 64 % 256 + g 2 * 2 % 256 + g 3 / 16
  let o2 := g 3 * 16 % 256 + g 4 / 2
  let o3 := g 4 * 128 % 256 + g 5 * 4 % 256 + g 6 / 8
  let o4 := g 6 * 32 % 256 + g 7
  if dlen = 8 then [o0, o1, o2, o3, o4]
  else if dlen = 7 then [o0, o1, o2, o3]
  else if dlen = 5 then [o0, o1, o2]
  else if dlen = 4 then [o0, o1]
  else if dlen = 2 then [o0]
  else []

/-- The outer `for len(src) > 0 && !end` loop of Go's base32 `decode`.  The
fuel argument (instantiated with the input length, which bounds the number of
iterations since every iteration consumes at least one character) stands in
for the loop's termination. -/
def b32decodeAux : Nat → List Char → Option Bytes
  | _, [] => some []
  | 0, _ :: _ => none
  | fuel + 1, c :: cs =>
    match b32readBlock 0 [] (c :: cs) with
    | none => none
    | some (dlen, dbuf, rest, ended) =>
      if ended then some (b32pack dlen dbuf)
      else (b32decodeAux fuel rest).map (fun out2 => b32pack dlen dbuf ++ out2)

/-- Model of `base32.StdEncoding.DecodeString`. -/
def b32DecodeString (s : String) : Option Bytes :=
  let src := stripNewlinesList s.toList
  b32decodeAux src.length src

/-- Model of `protocol.UserKeyFromString` (src/unnamed/part_003 lines
31-39): base32 decode of the *raw* input string, requiring exactly
`len(key) = 10` decoded bytes; `none` models the single `ErrInvalidKey`
error. -/
def UserKeyFromString (keyStr : String) : Option Bytes :=
  match b32DecodeString keyStr with
  | none => none
  | some data => if data.length = 10 then some data else none

/-- The uppercase rendering of the key `[0,1,2,3,4,5,6,7,8,9]` (Go test
data). -/
def ucKeyStr : String := "AAAQEAYEAUDAOCAJ"

/-- Lowercase rendering of the same key. -/
def lcKeyStr : String := "aaaqeayeaudaocaj"

/-- Whitespace-surrounded rendering of the same key. -/
def wsKeyStr : String := " AAAQEAYEAUDAOCAJ "

/-- A 15-character base32 string (spec section 8 test datum). -/
def shortKeyStr : String := "AAAQEAYEAUDAOCA"

/-! Worker registry and synthetic local IPs (src/client/client.go). -/

/-- Model of `type ipv4 [net.IPv4len]byte`. -/
structure Ipv4 where
  b0 : Nat
  b1 : Nat
  b2 : Nat
  b3 : Nat
deriving Repr, DecidableEq

/-- Big-endian read `binary.BigEndian.Uint32(ip[:])`. -/
def Ipv4.toNum (ip : Ipv4) : Nat :=
  ((ip.b0 * 256 + ip.b1) * 256 + ip.b2) * 256 + ip.b3

/-- Big-endian write `binary.BigEndian.PutUint32(ip[:], n)`. -/
def Ipv4.ofNum (n : Nat) : Ipv4 :=
  ⟨n / 16777216 % 256, n / 65536 % 256, n / 256 % 256, n % 256⟩

/-- Method `ipv4.Next` (src/client/client.go lines 29-34): big-endian 32-bit
increment with `uint32` wraparound. -/
def Ipv4.next (ip : Ipv4) : Ipv4 :=
  Ipv4.ofNum ((ip.toNum + 1) % 4294967296)

/-- The Go conversion `ipv4(ip)` applied to the 4-byte result of `To4`. -/
def ipv4OfBytes (l : Bytes) : Ipv4 :=
  ⟨l.getD 0 0, l.getD 1 0, l.getD 2 0, l.getD 3 0⟩

/-- Model of `type addrPortV4 struct { ip ipv4; port uint16 }`. -/
structure AddrPortV4 where
  ip : Ipv4
  port : Nat
deriving Repr, DecidableEq

/-- Go map lookup, the maps modelled as association lists in insertion
order. -/
def assocFind {α β : Type} [DecidableEq α] (m : List (α × β)) (k : α) : Option β :=
  match m with
  | [] => none
  | (k2, v) :: rest => if k2 = k then some v else assocFind rest k

/-- The registry-relevant state of `type client struct`: the two maps, the
next synthetic local IP, a supply of fresh channel identities (each
`make(chan []byte, dataChanSize)` yields a distinct channel), and the log of
workers spawned so far together with their local IP. -/
structure ClientState where
  remoteAddrToDataCh : List (AddrPortV4 × Nat)
  remoteIPToLocalIP : List (Ipv4 × Ipv4)
  nextLocalIP : Ipv4
  nextChanId : Nat
  spawnedWorkers : List (AddrPortV4 × Ipv4)
deriving Repr, DecidableEq

/-- Constructor `New` in the earlier snapshot (src/client/client.go lines
63-72): empty maps and `nextLocalIP: ipv4{127, 0, 0, 1}`. -/
def newClientEarly : ClientState := ⟨[], [], ⟨127, 0, 0, 1⟩, 0, []⟩

/-- Constructor `New` in the latest snapshot (src/client/client.go lines
665-673): empty maps; the composite literal does *not* list `nextLocalIP`,
which therefore stays at Go's zero value `ipv4{0, 0, 0, 0}`. -/
def newClientLatest : ClientState := ⟨[], [], ⟨0, 0, 0, 0⟩, 0, []⟩

/-- Model of `getWorkerChan` (src/client/client.go lines 504-542): under the
mutex, return the existing channel for `addr`; otherwise look up or allocate
the synthetic local IP for the remote IP (allocation takes `nextLocalIP` and
advances it by `Next`), create a fresh channel, insert it into the map and
spawn a worker on the assigned local IP.  Non-IPv4 addresses are logged and
yield `nil` (`none`) without touching the state.  The `isMaster` flag only
selects the spawned worker's port and does not affect the registry. -/
def getWorkerChan (s : ClientState) (addr : UDPAddr) : Option Nat × ClientState :=
  match ipTo4 addr.ip with
  | none => (none, s)
  | some ip =>
    let addr4 : AddrPortV4 := ⟨ipv4OfBytes ip, toUint16 addr.port⟩
    match assocFind s.remoteAddrToDataCh addr4 with
    | some dataCh => (some dataCh, s)
    | none =>
      let alloc :=
        match assocFind s.remoteIPToLocalIP addr4.ip with
        | some lip => (lip, s.remoteIPToLocalIP, s.nextLocalIP)
        | none => (s.nextLocalIP, s.remoteIPToLocalIP ++ [(addr4.ip, s.nextLocalIP)],
                   s.nextLocalIP.next)
      let dataCh := s.nextChanId
      (some dataCh,
       { remoteAddrToDataCh := s.remoteAddrToDataCh ++ [(addr4, dataCh)],
         remoteIPToLocalIP := alloc.2.1,
         nextLocalIP := alloc.2.2,
         nextChanId := dataCh + 1,
         spawnedWorkers := s.spawnedWorkers ++ [(addr4, alloc.1)] })

/-! Tunnel reader (src/client/proxy.go lines 150-230; also
src/client/client.go lines 295-360, whose loop body is identical).

Socket reads are abstracted as an event stream; times are seconds on a
monotone clock.  The registry interaction of the dispatch branch is modelled
by reporting the decoded address and payload. -/

/-- The outcome of one `conn.Read` under the 10-second deadline:
a deadline-exceeded timeout (with the state of `ctx.Done()` at the following
`select`), a successful read of `n` bytes, or any other read error. -/
inductive ReadEvent where
  | timeout (now : Nat) (cancelled : Bool)
  | success (now : Nat) (data : Bytes)
  | failure
deriving Repr, DecidableEq

/-- What one loop iteration does: fail the tunnel with an error, return
cleanly (server disconnect), or continue with the new `lastSuccess`, the
byte slices sent on `dataToServerCh`, and the frame dispatched to a worker
channel (if any). -/
inductive ReaderStep where
  | fail (msg : String)
  | stop
  | cont (lastSuccess : Nat) (sentToServer : List Bytes)
      (dispatched : Option (UDPAddr × Bytes))
deriving Repr, DecidableEq

/-- Error text of the fatal read failure. -/
def readFailedMsg : String := "main-loop: failed to read"

/-- Error text of the server-unresponsive failure. -/
def serverUnresponsiveMsg : String := "main-loop: server stopped responding"

/-- Error text of `ctx.Err()` after cancellation. -/
def ctxCancelledMsg : String := "context canceled"

/-- Panic text of `DecodeAddrData` on short input (unreachable from the
reader, which checks the length first). -/
def dataTooShortMsg : String := "data is too short"

/-- One iteration of the `for` loop of `proxyMainLoopReader`
(src/client/proxy.go lines 176-229): a non-timeout read error is fatal;
on timeout, more than 30 seconds since `lastSuccess` is fatal
(`server stopped responding`), otherwise the token is re-sent on
`dataToServerCh` by a blocking send unless the context is done; on success
`lastSuccess` becomes `now`, empty datagrams are skipped, longer-than-6-byte
datagrams are decoded and dispatched, and short datagrams are control bytes:
`'K'` (75) logs, `'D'` (68) returns `nil`, others log. -/
def readerStep (token : Bytes) (lastSuccess : Nat) (ev : ReadEvent) : ReaderStep :=
  match ev with
  | .failure => .fail readFailedMsg
  | .timeout now cancelled =>
    if now - lastSuccess > 30 then .fail serverUnresponsiveMsg
    else if cancelled then .fail ctxCancelledMsg
    else .cont lastSuccess [token] none
  | .success now data =>
    if data.length = 0 then .cont now [] none
    else if data.length > 6 then
      match DecodeAddrData data with
      | none => .fail dataTooShortMsg
      | some (addr, payload) => .cont now [] (some (addr, payload))
    else if data.getD 0 0 = 75 then .cont now [] none
    else if data.getD 0 0 = 68 then .stop
    else .cont now [] none

/-- Result of running the reader over an event trace. -/
inductive ReaderResult where
  | failed (msg : String) (sent : List Bytes)
  | stopped (sent : List Bytes)
  | pending (lastSuccess : Nat) (sent : List Bytes)
deriving Repr, DecidableEq

/-- Iterating `readerStep` over a trace, accumulating the outbound sends. -/
def readerLoop (token : Bytes) (lastSuccess : Nat) (sent : List Bytes) :
    List ReadEvent → ReaderResult
  | [] => .pending lastSuccess sent
  | ev :: evs =>
    match readerStep token lastSuccess ev with
    | .fail m => .failed m sent
    | .stop => .stopped sent
    | .cont ls2 out _ => readerLoop token ls2 (sent ++ out) evs

/-- Model of `proxyMainLoopReader`: `lastSuccess := time.Now()` right before
the loop (so the threshold is measured from the loop start until a first
successful read occurs). -/
def proxyMainLoopReader (token : Bytes) (startTime : Nat)
    (events : List ReadEvent) : ReaderResult :=
  readerLoop token startTime [] events

/-! Session retry loop: `Run` (src/client/client.go lines 675-714). -/

/-- The observable outcome of one `RunWithoutRetries` call.  `err` is `none`
when the call returned `nil` or `context.Canceled` (then `Run` returns
`nil`); `becameReady` records whether this session closed its `ready`
channel; `ranOver10s` is whether `time.Since(lastRun)` exceeded 10 seconds,
measured from just before the call. -/
structure SessionOutcome where
  err : Option Nat
  becameReady : Bool
  ranOver10s : Bool
deriving Repr, DecidableEq

/-- What `Run` returns over a trace of session outcomes. -/
inductive RunResult where
  | ok
  | err (e : Nat)
  | pending
deriving Repr, DecidableEq

/-- The retry loop of `Run`: `lastSuccRun` starts at the zero time and
`attempt` at 0.  After a failing session, a closed `ready` together with a
run longer than 10 s resets `lastSuccRun := time.Now()` and `attempt := 0`;
if `lastSuccRun` is still zero the error is returned; otherwise the attempt
counter is incremented, more than 5 attempts returns the error, and the loop
sleeps `1 << attempt` seconds before the next run.  The second component
collects the waits performed.  (We assume the outer context is not
cancelled, so the `ctx.Done()` select arm is never taken.) -/
def runLoop (lastSuccRunZero : Bool) (attempt : Nat) :
    List SessionOutcome → RunResult × List Nat
  | [] => (.pending, [])
  | o :: os =>
    match o.err with
    | none => (.ok, [])
    | some e =>
      let z := if o.becameReady && o.ranOver10s then false else lastSuccRunZero
      let a := if o.becameReady && o.ranOver10s then 0 else attempt
      if z then (.err e, [])
      else if a + 1 > 5 then (.err e, [])
      else
        let r := runLoop z (a + 1) os
        (r.1, 2 ^ (a + 1) :: r.2)

/-- Model of `Run`: `lastSuccRun := time.Time{}` (zero) and `attempt := 0`. -/
def Run (outcomes : List SessionOutcome) : RunResult × List Nat :=
  runLoop true 0 outcomes

/-- A failing session that became ready and ran more than 10 s. -/
def recoverableFail (e : Nat) : SessionOutcome := ⟨some e, true, true⟩

/-- A failing session that never published its ready signal. -/
def preReadyFail (e : Nat) : SessionOutcome := ⟨some e, false, false⟩

/-- A session whose `RunWithoutRetries` returned `nil`. -/
def cleanSession : SessionOutcome := ⟨none, false, false⟩

/-! Admission response handling: `connect` (src/client/api.go lines 13-61).

The pure decision logic applied to an HTTP 200 response body already decoded
into `protocol.ConnectionResponse` (src/unnamed/part_003, third snapshot):
four optional fields `token`, `port`, `error_code`, `error_message`. -/

/-- Model of `protocol.ConnectionResponse`. -/
structure ConnectionResponse where
  token : Option Bytes
  port : Option Int
  errorCode : Option Nat
  errorMessage : Option String
deriving Repr, DecidableEq

/-- What `connect` returns after the HTTP 200 / JSON decode steps. -/
inductive ConnectResult where
  | ok (port : Int) (token : Bytes)
  | err (msg : String)
deriving Repr, DecidableEq

/-- Model of `protocol.ConnectionCode.String`. -/
def connectionCodeString (c : Nat) : String :=
  if c = 0 then "ok"
  else if c = 1 then "already connected"
  else if c = 2 then "server full"
  else if c = 3 then "internal error"
  else if c = 4 then "version mismatch"
  else "unknown"

/-- Error text prefixing the server-reported detail. -/
def serverErrorMsg (detail : String) : String := "server returned error: " ++ detail

/-- Error text of the invalid-response failure; the formatted struct dump of
the Go message is elided. -/
def invalidResponseMsg : String := "server returned invalid response"

/-- The tail of `connect` (src/client/api.go lines 50-60): a non-nil
`ErrorCode` fails with its rendered code, else a non-nil `ErrorMessage`
fails with that message, else a nil `Port` *or* nil `Token` fails as invalid
response, else the pair `(*Port, *Token)` is returned. -/
def handleConnResp (r : ConnectionResponse) : ConnectResult :=
  match r.errorCode with
  | some c => .err (serverErrorMsg (connectionCodeString c))
  | none =>
    match r.errorMessage with
    | some m => .err (serverErrorMsg m)
    | none =>
      match r.port, r.token with
      | some p, some t => .ok p t
      | _, _ => .err invalidResponseMsg

/-! Lemmas and theorems.  Claim theorems are marked by claim id. -/

lemma ipTo4_length {ip ip4 : Bytes} (h : ipTo4 ip = some ip4) : ip4.length = 4 := by
  unfold ipTo4 at h
  split at h
  · cases h; omega
  · split at h
    · cases h
      rename_i h4 h16
      simp [List.length_drop]
      omega
    · cases h

lemma ipTo4_netIPv4 (a b c d : Nat) : ipTo4 (netIPv4 a b c d) = some [a, b, c, d] := by
  simp [ipTo4, netIPv4]

lemma exists_four {l : Bytes} (h : l.length = 4) :
    ∃ a b c d, l = [a, b, c, d] := by
  match l, h with
  | [a, b, c, d], _ => exact ⟨a, b, c, d, rfl⟩

lemma encode_eq {addr : UDPAddr} {ip4 : Bytes} (hip : ipTo4 addr.ip = some ip4)
    {p : Bytes} (hp : p ≠ []) :
    EncodeAddrData [] addr p =
      some (ip4 ++ [toUint16 addr.port % 256, toUint16 addr.port / 256 % 256] ++ p) := by
  unfold EncodeAddrData
  rw [hip]
  simp [appendUint16LE, List.length_eq_zero, hp]

/-- C1.
Framing round-trip: for every IPv4 address `addr` with port in `0..65535` and
every non-empty payload `p`, decoding the frame produced by encoding from an
empty buffer succeeds and recovers the same four IPv4 bytes, the same port,
and the payload byte for byte. -/
theorem encode_decode_addr_data_roundtrip (addr : UDPAddr) (p : Bytes)
    (hip : (ipTo4 addr.ip).isSome) (h0 : 0 ≤ addr.port) (h1 : addr.port < 65536)
    (hp : p ≠ []) :
    ∃ buf addrD,
      EncodeAddrData [] addr p = some buf ∧
      DecodeAddrData buf = some (addrD, p) ∧
      ipTo4 addrD.ip = ipTo4 addr.ip ∧ addrD.port = addr.port := by
  obtain ⟨ip4, hip4⟩ := Option.isSome_iff_exists.mp hip
  obtain ⟨a, b, c, d, rfl⟩ := exists_four (ipTo4_length hip4)
  have henc := encode_eq hip4 hp
  refine ⟨_, ⟨netIPv4 a b c d,
    ((toUint16 addr.port % 256 + toUint16 addr.port / 256 % 256 * 256 : Nat) : Int)⟩,
    henc, ?_, ?_, ?_⟩
  · unfold DecodeAddrData
    have hlen : ¬ ([a, b, c, d] ++
        [toUint16 addr.port % 256, toUint16 addr.port / 256 % 256] ++ p).length
          < AddrDataMinSize := by
      simp [AddrDataMinSize]
      cases p with
      | nil => exact absurd rfl hp
      | cons x xs => simp
    rw [if_neg hlen]
    simp
  · simp only [hip4]
    exact ipTo4_netIPv4 a b c d
  · show ((toUint16 addr.port % 256 + toUint16 addr.port / 256 % 256 * 256 : Nat) : Int)
      = addr.port
    have hv : toUint16 addr.port = addr.port.toNat := by
      unfold toUint16
      rw [Int.emod_eq_of_lt h0 h1]
    rw [hv]
    have hb : addr.port.toNat < 65536 := by omega
    have : addr.port.toNat % 256 + addr.port.toNat / 256 % 256 * 256 = addr.port.toNat := by
      omega
    rw [this]
    omega

/-- Witness for C1 at a concrete input (`127.0.0.1:12345`, payload
`[1,2,3,4,5,6,7,8]`, the scenario of spec section 8). -/
theorem encode_decode_addr_data_roundtrip_witness :
    ∃ buf addrD,
      EncodeAddrData [] ⟨[127, 0, 0, 1], 12345⟩ [1, 2, 3, 4, 5, 6, 7, 8] = some buf ∧
      DecodeAddrData buf = some (addrD, [1, 2, 3, 4, 5, 6, 7, 8]) ∧
      ipTo4 addrD.ip = ipTo4 ([127, 0, 0, 1] : Bytes) ∧ addrD.port = 12345 :=
  encode_decode_addr_data_roundtrip ⟨[127, 0, 0, 1], 12345⟩ [1, 2, 3, 4, 5, 6, 7, 8]
    (by decide) (by decide) (by decide) (by decide)

/-- C2.
Framing input validation: `EncodeAddrData` fails (panics) exactly on non-IPv4
addresses or empty payloads, and `DecodeAddrData` fails (panics) exactly on
inputs shorter than 7 bytes; on all other inputs neither operation fails. -/
theorem encode_decode_addr_data_validation (buf : Bytes) (addr : UDPAddr)
    (data : Bytes) (frame : Bytes) :
    (EncodeAddrData buf addr data = none ↔ ipTo4 addr.ip = none ∨ data = []) ∧
    (DecodeAddrData frame = none ↔ frame.length < 7) := by
  constructor
  · unfold EncodeAddrData
    cases h : ipTo4 addr.ip with
    | none => simp
    | some ip4 =>
      simp only [Option.some.injEq]
      constructor
      · intro hx
        split at hx
        · right
          rename_i hz
          exact List.length_eq_zero.mp hz
        · cases hx
      · rintro (hc | hc)
        · cases hc
        · simp [hc]
  · unfold DecodeAddrData
    split
    · rename_i h
      simpa [AddrDataMinSize] using h
    · rename_i h
      simp only [AddrDataMinSize] at h
      simp
      omega

/-- Witness for C2 at concrete inputs (a 3-byte IP and a 3-byte frame). -/
theorem encode_decode_addr_data_validation_witness :
    (EncodeAddrData [] ⟨[1, 2, 3], 5⟩ [7] = none ↔
      ipTo4 [1, 2, 3] = none ∨ [7] = ([] : Bytes)) ∧
    (DecodeAddrData [1, 2, 3] = none ↔ ([1, 2, 3] : Bytes).length < 7) :=
  encode_decode_addr_data_validation [] ⟨[1, 2, 3], 5⟩ [7] [1, 2, 3]

/-- C10.
Implicit port truncation: for any IPv4 address and non-empty payload the
encode succeeds whatever the `int` port is (it is truncated to the port
modulo 2^16), and decoding the frame returns `port mod 65536`; hence the
round-trip preserves the port exactly when `0 ≤ port < 65536`. -/
theorem encode_addr_data_port_truncation (addr : UDPAddr) (p : Bytes)
    (hip : (ipTo4 addr.ip).isSome) (hp : p ≠ []) :
    ∃ buf addrD,
      EncodeAddrData [] addr p = some buf ∧
      DecodeAddrData buf = some (addrD, p) ∧
      addrD.port = addr.port % 65536 ∧
      (0 ≤ addr.port → addr.port < 65536 → addrD.port = addr.port) := by
  obtain ⟨ip4, hip4⟩ := Option.isSome_iff_exists.mp hip
  obtain ⟨a, b, c, d, rfl⟩ := exists_four (ipTo4_length hip4)
  have henc := encode_eq hip4 hp
  refine ⟨_, ⟨netIPv4 a b c d,
    ((toUint16 addr.port % 256 + toUint16 addr.port / 256 % 256 * 256 : Nat) : Int)⟩,
    henc, ?_, ?_, ?_⟩
  · unfold DecodeAddrData
    have hlen : ¬ ([a, b, c, d] ++
        [toUint16 addr.port % 256, toUint16 addr.port / 256 % 256] ++ p).length
          < AddrDataMinSize := by
      simp [AddrDataMinSize]
      cases p with
      | nil => exact absurd rfl hp
      | cons x xs => simp
    rw [if_neg hlen]
    simp
  · show ((toUint16 addr.port % 256 + toUint16 addr.port / 256 % 256 * 256 : Nat) : Int)
      = addr.port % 65536
    have hlt : toUint16 addr.port < 65536 := by
      unfold toUint16
      have := Int.emod_lt_of_pos addr.port (b := 65536) (by norm_num)
      omega
    have hre : toUint16 addr.port % 256 + toUint16 addr.port / 256 % 256 * 256
        = toUint16 addr.port := by omega
    rw [hre]
    unfold toUint16
    have hnn : 0 ≤ addr.port % 65536 :=
      Int.emod_nonneg addr.port (by norm_num)
    omega
  · intro ha hb
    show ((toUint16 addr.port % 256 + toUint16 addr.port / 256 % 256 * 256 : Nat) : Int)
      = addr.port
    have hv : toUint16 addr.port = addr.port.toNat := by
      unfold toUint16
      rw [Int.emod_eq_of_lt ha hb]
    rw [hv]
    have hba : addr.port.toNat < 65536 := by omega
    have : addr.port.toNat % 256 + addr.port.toNat / 256 % 256 * 256 = addr.port.toNat := by
      omega
    rw [this]
    omega

/-- Witness for C10 at a concrete out-of-range port (`65536 + 5` truncates to
`5`) applied through the theorem itself. -/
theorem encode_addr_data_port_truncation_witness :
    ∃ buf addrD,
      EncodeAddrData [] ⟨[10, 0, 0, 7], 65541⟩ [42] = some buf ∧
      DecodeAddrData buf = some (addrD, [42]) ∧
      addrD.port = (65541 : Int) % 65536 ∧
      (0 ≤ (65541 : Int) → (65541 : Int) < 65536 → addrD.port = 65541) :=
  encode_addr_data_port_truncation ⟨[10, 0, 0, 7], 65541⟩ [42] (by decide) (by decide)

lemma b32alphabet_not_special : ∀ c ∈ b32alphabet, c ≠ '\r' ∧ c ≠ '\n' ∧ c ≠ '=' := by
  decide

lemma b32char_mem (v : Nat) : b32char v ∈ b32alphabet := by
  unfold b32char List.getD
  cases h : b32alphabet.get? v with
  | none => simp [Option.getD]; decide
  | some c =>
    simp [Option.getD]
    exact List.get?_mem h

lemma b32decodeMap_ne {c : Char} (h : c ∈ b32alphabet) : b32decodeMap c ≠ 255 := by
  unfold b32decodeMap
  have h1 : b32alphabet.indexOf c < b32alphabet.length := List.indexOf_lt_length.mpr h
  have h2 : b32alphabet.length = 32 := by decide
  rw [h2] at h1
  simp only [if_pos h1]
  omega

lemma b32decodeMap_char {v : Nat} (h : v < 32) : b32decodeMap (b32char v) = v := by
  revert v h
  decide

lemma b32readBlock_valid (cs : List Char) :
    ∀ (j : Nat) (dbuf : List Nat) (rest : List Char),
    j + cs.length = 8 → (∀ c ∈ cs, c ∈ b32alphabet) →
    b32readBlock j dbuf (cs ++ rest) = some (8, dbuf ++ cs.map b32decodeMap, rest, false) := by
  induction cs with
  | nil =>
    intro j dbuf rest hj _
    simp at hj
    subst hj
    unfold b32readBlock
    simp
  | cons c cs ih =>
    intro j dbuf rest hj hmem
    have hj8 : ¬ 8 ≤ j := by simp at hj; omega
    have hc : c ∈ b32alphabet := hmem c (by simp)
    unfold b32readBlock
    rw [if_neg hj8]
    simp only [List.cons_append]
    have hpad : ¬ (c = '=' ∧ 2 ≤ j ∧ (cs ++ rest).length < 8) := by
      rintro ⟨hce, -, -⟩
      exact (b32alphabet_not_special c hc).2.2 hce
    rw [if_neg hpad]
    simp only [if_neg (b32decodeMap_ne hc)]
    rw [ih (j + 1) (dbuf ++ [b32decodeMap c]) rest (by simp at hj ⊢; omega)
        (fun x hx => hmem x (by simp [hx]))]
    simp

lemma b32decodeAux_step (fuel : Nat) (c : Char) (cs : List Char)
    (dbuf : List Nat) (rest : List Char)
    (hblock : b32readBlock 0 [] (c :: cs) = some (8, dbuf, rest, false)) :
    b32decodeAux (fuel + 1) (c :: cs) =
      Option.map (fun out2 => b32pack 8 dbuf ++ out2) (b32decodeAux fuel rest) := by
  have hdef : b32decodeAux (fuel + 1) (c :: cs) =
      match b32readBlock 0 [] (c :: cs) with
      | none => none
      | some (dlen, dbuf, rest, ended) =>
        if ended then some (b32pack dlen dbuf)
        else (b32decodeAux fuel rest).map (fun out2 => b32pack dlen dbuf ++ out2) := rfl
  rw [hdef, hblock]
  rfl

lemma b32decodeAux_two (l1 l2 : List Char) (h1 : l1.length = 8) (h2 : l2.length = 8)
    (m1 : ∀ c ∈ l1, c ∈ b32alphabet) (m2 : ∀ c ∈ l2, c ∈ b32alphabet) :
    b32decodeAux 16 (l1 ++ l2) =
      some (b32pack 8 (l1.map b32decodeMap) ++ b32pack 8 (l2.map b32decodeMap)) := by
  have hb1 : b32readBlock 0 [] (l1 ++ l2) = some (8, l1.map b32decodeMap, l2, false) := by
    simpa using b32readBlock_valid l1 0 [] l2 (by omega) m1
  have hb2 : b32readBlock 0 [] (l2 ++ []) = some (8, l2.map b32decodeMap, [], false) :=
    b32readBlock_valid l2 0 [] [] (by omega) m2
  rw [List.append_nil] at hb2
  rcases l1 with - | ⟨c1, t1⟩
  · simp at h1
  rcases l2 with - | ⟨c2, t2⟩
  · simp at h2
  have e16 : (16 : Nat) = 15 + 1 := rfl
  have e15 : (15 : Nat) = 14 + 1 := rfl
  rw [e16, List.cons_append,
    b32decodeAux_step 15 c1 (t1 ++ c2 :: t2) ((c1 :: t1).map b32decodeMap) (c2 :: t2)
      (by rw [← List.cons_append]; exact hb1),
    e15,
    b32decodeAux_step 14 c2 t2 ((c2 :: t2).map b32decodeMap) [] hb2]
  have hnil : b32decodeAux 14 [] = some [] := rfl
  rw [hnil]
  simp

lemma b32decodeAux_encode10 (b0 b1 b2 b3 b4 b5 b6 b7 b8 b9 : Nat)
    (h0 : b0 < 256) (h1 : b1 < 256) (h2 : b2 < 256) (h3 : b3 < 256) (h4 : b4 < 256)
    (h5 : b5 < 256) (h6 : b6 < 256) (h7 : b7 < 256) (h8 : b8 < 256) (h9 : b9 < 256) :
    b32decodeAux 16
      ((encodeGroup5 b0 b1 b2 b3 b4).map (fun v => b32char (v % 32)) ++
       (encodeGroup5 b5 b6 b7 b8 b9).map (fun v => b32char (v % 32)))
      = some [b0, b1, b2, b3, b4, b5, b6, b7, b8, b9] := by
  have mem1 : ∀ c ∈ (encodeGroup5 b0 b1 b2 b3 b4).map (fun v => b32char (v % 32)),
      c ∈ b32alphabet := by
    intro c hcm
    simp only [List.mem_map] at hcm
    obtain ⟨v, -, rfl⟩ := hcm
    exact b32char_mem _
  have mem2 : ∀ c ∈ (encodeGroup5 b5 b6 b7 b8 b9).map (fun v => b32char (v % 32)),
      c ∈ b32alphabet := by
    intro c hcm
    simp only [List.mem_map] at hcm
    obtain ⟨v, -, rfl⟩ := hcm
    exact b32char_mem _
  rw [b32decodeAux_two _ _ (by simp [encodeGroup5]) (by simp [encodeGroup5]) mem1 mem2]
  have hd1 : ((encodeGroup5 b0 b1 b2 b3 b4).map (fun v => b32char (v % 32))).map b32decodeMap
      = (encodeGroup5 b0 b1 b2 b3 b4).map (fun v => v % 32) := by
    simp only [List.map_map]
    apply List.map_congr_left
    intro v _
    exact b32decodeMap_char (Nat.mod_lt _ (by norm_num))
  have hd2 : ((encodeGroup5 b5 b6 b7 b8 b9).map (fun v => b32char (v % 32))).map b32decodeMap
      = (encodeGroup5 b5 b6 b7 b8 b9).map (fun v => v % 32) := by
    simp only [List.map_map]
    apply List.map_congr_left
    intro v _
    exact b32decodeMap_char (Nat.mod_lt _ (by norm_num))
  rw [hd1, hd2]
  have hpack1 : b32pack 8 ((encodeGroup5 b0 b1 b2 b3 b4).map (fun v => v % 32))
      = [b0, b1, b2, b3, b4] := by
    simp only [encodeGroup5, List.map, b32pack, List.getD, List.get?]
    norm_num
    refine ⟨?_, ?_, ?_, ?_, ?_⟩ <;> omega
  have hpack2 : b32pack 8 ((encodeGroup5 b5 b6 b7 b8 b9).map (fun v => v % 32))
      = [b5, b6, b7, b8, b9] := by
    simp only [encodeGroup5, List.map, b32pack, List.getD, List.get?]
    norm_num
    refine ⟨?_, ?_, ?_, ?_, ?_⟩ <;> omega
  rw [hpack1, hpack2]
  rfl

lemma stripNewlinesList_alphabet {l : List Char} (h : ∀ c ∈ l, c ∈ b32alphabet) :
    stripNewlinesList l = l := by
  unfold stripNewlinesList
  apply List.filter_eq_self.mpr
  intro c hc
  have hs := b32alphabet_not_special c (h c hc)
  simp [hs.1, hs.2.1]

/-- C8.
UserKey round-trip: parsing the 16-character base32 rendering of any 10-byte
key returns the key itself without error. -/
theorem user_key_roundtrip (k : Bytes) (hlen : k.length = 10)
    (hbytes : ∀ b ∈ k, b < 256) :
    UserKeyFromString (UserKeyString k) = some k := by
  rcases k with - | ⟨b0, - | ⟨b1, - | ⟨b2, - | ⟨b3, - | ⟨b4, - | ⟨b5, - | ⟨b6,
    - | ⟨b7, - | ⟨b8, - | ⟨b9, - | ⟨b10, t⟩⟩⟩⟩⟩⟩⟩⟩⟩⟩⟩ <;> simp_all
  have hchars : (UserKeyString [b0, b1, b2, b3, b4, b5, b6, b7, b8, b9]).toList =
      ((encodeGroup5 b0 b1 b2 b3 b4).map (fun v => b32char (v % 32)) ++
       (encodeGroup5 b5 b6 b7 b8 b9).map (fun v => b32char (v % 32))) := by
    show ((base32EncodeBytes [b0, b1, b2, b3, b4, b5, b6, b7, b8, b9]).map
      (fun v => b32char (v % 32))) = _
    have henc : base32EncodeBytes [b0, b1, b2, b3, b4, b5, b6, b7, b8, b9] =
        encodeGroup5 b0 b1 b2 b3 b4 ++ encodeGroup5 b5 b6 b7 b8 b9 := by
      unfold base32EncodeBytes
      unfold base32EncodeBytes
      unfold base32EncodeBytes
      rfl
    rw [henc, List.map_append]
  have hmem : ∀ c ∈ (UserKeyString [b0, b1, b2, b3, b4, b5, b6, b7, b8, b9]).toList,
      c ∈ b32alphabet := by
    rw [hchars]
    intro c hcm
    simp only [List.mem_append, List.mem_map] at hcm
    rcases hcm with ⟨v, -, rfl⟩ | ⟨v, -, rfl⟩ <;> exact b32char_mem _
  unfold UserKeyFromString b32DecodeString
  rw [stripNewlinesList_alphabet hmem, hchars]
  have hlen16 : ((encodeGroup5 b0 b1 b2 b3 b4).map (fun v => b32char (v % 32)) ++
      (encodeGroup5 b5 b6 b7 b8 b9).map (fun v => b32char (v % 32))).length = 16 := by
    simp [encodeGroup5]
  simp only [hlen16]
  rw [b32decodeAux_encode10 b0 b1 b2 b3 b4 b5 b6 b7 b8 b9
    (by simp_all) (by simp_all) (by simp_all) (by simp_all) (by simp_all)
    (by simp_all) (by simp_all) (by simp_all) (by simp_all) (by simp_all)]
  rfl

/-- Witness for C8 at the Go test vector: the key `[0..9]` renders to
the string held by `ucKeyStr` and parses back to itself. -/
theorem user_key_roundtrip_witness :
    UserKeyString [0, 1, 2, 3, 4, 5, 6, 7, 8, 9] = ucKeyStr ∧
    UserKeyFromString (UserKeyString [0, 1, 2, 3, 4, 5, 6, 7, 8, 9]) =
      some [0, 1, 2, 3, 4, 5, 6, 7, 8, 9] :=
  ⟨by decide, user_key_roundtrip [0, 1, 2, 3, 4, 5, 6, 7, 8, 9] (by decide) (by decide)⟩

/-- C7 counterexample.
The claim says `UserKeyFromString` trims whitespace and uppercases, so that a
lowercase or whitespace-surrounded rendering of a valid key parses
successfully.  In the source no normalisation happens (`normalizeKey` lives
in the GUI, not in `UserKeyFromString`): the lowercase and
whitespace-surrounded renderings of the valid key string both fail with
`InvalidKey`. -/
theorem user_key_parse_counterexample :
    UserKeyFromString ucKeyStr = some [0, 1, 2, 3, 4, 5, 6, 7, 8, 9] ∧
    UserKeyFromString lcKeyStr = none ∧
    UserKeyFromString wsKeyStr = none := by
  refine ⟨by decide, by decide, by decide⟩

/-- C7 as amended.
Parsing a user key base32-decodes the raw input (standard alphabet and
padding, no trimming and no case folding) and succeeds exactly when the
decoded result is exactly 10 bytes; every other input — bad base32, wrong
decoded length such as a 15-character string, lowercase or
whitespace-surrounded renderings — fails with the single error `InvalidKey`
(modelled as `none`). -/
theorem user_key_from_string_validation :
    (∀ s : String, (UserKeyFromString s).isSome ↔
        ∃ d, b32DecodeString s = some d ∧ d.length = 10) ∧
    UserKeyFromString lcKeyStr = none ∧
    UserKeyFromString wsKeyStr = none ∧
    UserKeyFromString shortKeyStr = none := by
  refine ⟨fun s => ?_, by decide, by decide, by decide⟩
  unfold UserKeyFromString
  cases hds : b32DecodeString s with
  | none => simp
  | some data =>
    by_cases hdl : data.length = 10
    · simp [hdl]
    · simp [hdl]

/-- Witness for C7 at the concrete valid key string. -/
theorem user_key_from_string_validation_witness :
    ((UserKeyFromString ucKeyStr).isSome ↔
      ∃ d, b32DecodeString ucKeyStr = some d ∧ d.length = 10) ∧
    UserKeyFromString shortKeyStr = none :=
  ⟨user_key_from_string_validation.1 ucKeyStr,
   user_key_from_string_validation.2.2.2⟩

lemma assocFind_append_of_none {α β : Type} [DecidableEq α]
    {m : List (α × β)} {k : α} (h : assocFind m k = none) (v : β) :
    assocFind (m ++ [(k, v)]) k = some v := by
  induction m with
  | nil => simp [assocFind]
  | cons kv rest ih =>
    obtain ⟨k2, v2⟩ := kv
    unfold assocFind at h
    split at h
    · cases h
    · rename_i hne
      rw [List.cons_append]
      show (if k2 = k then some v2 else assocFind (rest ++ [(k, v)]) k) = some v
      rw [if_neg hne]
      exact ih h

/-- C6.
Registry idempotence per peer: calling `getWorkerChan` again with the same
peer address, with no intervening worker exit, returns the identical channel
and leaves the whole registry state unchanged — no second channel is created,
no second worker is spawned, and every other entry is untouched. -/
theorem get_worker_chan_idempotent (s : ClientState) (addr : UDPAddr) :
    getWorkerChan (getWorkerChan s addr).2 addr = getWorkerChan s addr := by
  unfold getWorkerChan
  cases hip : ipTo4 addr.ip with
  | none => rfl
  | some ip =>
    cases hfind : assocFind s.remoteAddrToDataCh ⟨ipv4OfBytes ip, toUint16 addr.port⟩ with
    | some dataCh => simp [hfind]
    | none =>
      simp only [hfind]
      rw [assocFind_append_of_none hfind s.nextChanId]

/-- Witness for C6 at a concrete state and peer address. -/
theorem get_worker_chan_idempotent_witness :
    getWorkerChan (getWorkerChan newClientEarly ⟨[1, 2, 3, 4], 5000⟩).2
        ⟨[1, 2, 3, 4], 5000⟩ =
      getWorkerChan newClientEarly ⟨[1, 2, 3, 4], 5000⟩ :=
  get_worker_chan_idempotent newClientEarly ⟨[1, 2, 3, 4], 5000⟩

/-- C5 (code bug evaluation).
In the latest snapshot `New` omits the `nextLocalIP: ipv4{127, 0, 0, 1}`
initialisation, so the first distinct remote IP of a session is assigned the
zero value `0.0.0.0` (and the allocator then advances to `0.0.0.1`) instead
of `127.0.0.1`; the earlier snapshot's `New` yields `127.0.0.1` and advances
to `127.0.0.2` as the spec states. -/
theorem synthetic_ip_first_allocation :
    (getWorkerChan newClientLatest ⟨[1, 2, 3, 4], 5000⟩).2.remoteIPToLocalIP
      = [(⟨1, 2, 3, 4⟩, ⟨0, 0, 0, 0⟩)] ∧
    (getWorkerChan newClientLatest ⟨[1, 2, 3, 4], 5000⟩).2.nextLocalIP = ⟨0, 0, 0, 1⟩ ∧
    (getWorkerChan newClientEarly ⟨[1, 2, 3, 4], 5000⟩).2.remoteIPToLocalIP
      = [(⟨1, 2, 3, 4⟩, ⟨127, 0, 0, 1⟩)] ∧
    (getWorkerChan newClientEarly ⟨[1, 2, 3, 4], 5000⟩).2.nextLocalIP = ⟨127, 0, 0, 2⟩ := by
  refine ⟨by decide, by decide, by decide, by decide⟩

/-- C3.
Tunnel reader timeout handling: on a read timeout the reader fails the tunnel
with the server-unresponsive error when more than 30 seconds have passed
since the last successful read — initialized to the loop start — and
otherwise (context still live) performs the blocking, cancellation-aware
send of the session token on the outbound queue and keeps reading; when the
context is done it returns the context error instead; a successful read
resets the last-success timestamp to the read time. -/
theorem reader_timeout_policy (token : Bytes) (startTime now ls : Nat)
    (evs : List ReadEvent) (data : Bytes) :
    (now - startTime > 30 →
      proxyMainLoopReader token startTime (.timeout now false :: evs) =
        .failed serverUnresponsiveMsg []) ∧
    (now - startTime ≤ 30 →
      proxyMainLoopReader token startTime (.timeout now false :: evs) =
        readerLoop token startTime [token] evs) ∧
    (now - startTime ≤ 30 →
      proxyMainLoopReader token startTime (.timeout now true :: evs) =
        .failed ctxCancelledMsg []) ∧
    (∀ ls2 out disp, readerStep token ls (.success now data) = .cont ls2 out disp →
      ls2 = now) := by
  refine ⟨?_, ?_, ?_, ?_⟩
  · intro h
    have hstep : readerStep token startTime (.timeout now false) =
        .fail serverUnresponsiveMsg := by
      unfold readerStep
      simp [h]
    simp [proxyMainLoopReader, readerLoop, hstep]
  · intro h
    have hn : ¬ now - startTime > 30 := by omega
    have hstep : readerStep token startTime (.timeout now false) =
        .cont startTime [token] none := by
      unfold readerStep
      simp [hn]
    simp [proxyMainLoopReader, readerLoop, hstep]
  · intro h
    have hn : ¬ now - startTime > 30 := by omega
    have hstep : readerStep token startTime (.timeout now true) =
        .fail ctxCancelledMsg := by
      unfold readerStep
      simp [hn]
    simp [proxyMainLoopReader, readerLoop, hstep]
  · intro ls2 out disp hstep
    simp only [readerStep] at hstep
    repeat' split at hstep
    all_goals cases hstep
    all_goals rfl

/-- Witness for C3: a timeout 31 seconds in fails; a timeout 20 seconds in
re-sends the token; a successful read at time 40 resets `lastSuccess`. -/
theorem reader_timeout_policy_witness :
    proxyMainLoopReader [9, 9, 9, 9, 9, 9] 0 [.timeout 31 false] =
      .failed serverUnresponsiveMsg [] ∧
    proxyMainLoopReader [9, 9, 9, 9, 9, 9] 0 [.timeout 20 false] =
      readerLoop [9, 9, 9, 9, 9, 9] 0 [[9, 9, 9, 9, 9, 9]] [] ∧
    ([] : Bytes).length = 0 ∧ readerStep [9, 9, 9, 9, 9, 9] 0 (.success 40 []) =
      .cont 40 [] none :=
  ⟨(reader_timeout_policy [9, 9, 9, 9, 9, 9] 0 31 0 [] []).1 (by decide),
   (reader_timeout_policy [9, 9, 9, 9, 9, 9] 0 20 0 [] []).2.1 (by decide),
   by decide, by decide⟩

lemma runLoop_cons (z : Bool) (a : Nat) (o : SessionOutcome) (os : List SessionOutcome) :
    runLoop z a (o :: os) =
      match o.err with
      | none => (.ok, [])
      | some e =>
        let z2 := if o.becameReady && o.ranOver10s then false else z
        let a2 := if o.becameReady && o.ranOver10s then 0 else a
        if z2 then (.err e, [])
        else if a2 + 1 > 5 then (.err e, [])
        else ((runLoop z2 (a2 + 1) os).1, 2 ^ (a2 + 1) :: (runLoop z2 (a2 + 1) os).2) := by
  rfl

/-- C4 counterexample.
The claim says a session that failed before its ready signal was published
makes `Run` return that error immediately with no retry.  After a recoverable
session, however, `lastSuccRun` is no longer zero, so a later pre-ready
failure (error 2 here) is retried after a backoff instead of being returned:
the trace below ends with `Run` returning `nil` after waits of 2 and 4
seconds. -/
theorem run_pre_ready_failure_counterexample :
    Run [recoverableFail 1, preReadyFail 2, cleanSession] = (.ok, [2, 4]) ∧
    (Run [recoverableFail 1, preReadyFail 2, cleanSession]).1 ≠ .err 2 := by
  refine ⟨by decide, by decide⟩

/-- C4 as amended.
Session retry policy: a session that failed before its ready signal was
published, *when no earlier session of this `Run` call had already become
recoverable*, makes `Run` return that error immediately with no retry; a
failing session that ran at least 10 seconds past becoming ready resets the
attempt counter to 0 (the next wait is `2^1` seconds); each subsequent failed
attempt `n` (n = 1..5) waits `2^n` seconds before the next run, and when the
attempt counter exceeds 5 `Run` gives up and returns the last error. -/
theorem run_retry_policy (e e0 e1 e2 e3 e4 e5 : Nat)
    (o r f1 f2 f3 f4 f5 : SessionOutcome) (os tl : List SessionOutcome)
    (ho : o.err = some e) (hor : (o.becameReady && o.ranOver10s) = false)
    (hr : r.err = some e0) (hrr : (r.becameReady && r.ranOver10s) = true)
    (h1 : f1.err = some e1) (h1r : (f1.becameReady && f1.ranOver10s) = false)
    (h2 : f2.err = some e2) (h2r : (f2.becameReady && f2.ranOver10s) = false)
    (h3 : f3.err = some e3) (h3r : (f3.becameReady && f3.ranOver10s) = false)
    (h4 : f4.err = some e4) (h4r : (f4.becameReady && f4.ranOver10s) = false)
    (h5 : f5.err = some e5) (h5r : (f5.becameReady && f5.ranOver10s) = false) :
    Run (o :: os) = (.err e, []) ∧
    (∀ z a, runLoop z a (r :: tl) =
      ((runLoop false 1 tl).1, 2 ^ 1 :: (runLoop false 1 tl).2)) ∧
    Run (r :: f1 :: f2 :: f3 :: f4 :: f5 :: os) = (.err e5, [2, 4, 8, 16, 32]) := by
  refine ⟨?_, ?_, ?_⟩
  · simp [Run, runLoop_cons, ho, hor]
  · intro z a
    rw [runLoop_cons, hr]
    simp [hrr]
  · simp [Run, runLoop_cons, hr, hrr, h1, h1r, h2, h2r, h3, h3r, h4, h4r, h5, h5r]

/-- Witness for C4 at concrete traces through the theorem itself. -/
theorem run_retry_policy_witness :
    Run [preReadyFail 7] = (.err 7, []) ∧
    (∀ z a, runLoop z a [recoverableFail 1] =
      ((runLoop false 1 []).1, 2 ^ 1 :: (runLoop false 1 []).2)) ∧
    Run [recoverableFail 1, preReadyFail 11, preReadyFail 12, preReadyFail 13,
      preReadyFail 14, preReadyFail 15] = (.err 15, [2, 4, 8, 16, 32]) :=
  run_retry_policy 7 1 11 12 13 14 15 (preReadyFail 7) (recoverableFail 1)
    (preReadyFail 11) (preReadyFail 12) (preReadyFail 13) (preReadyFail 14)
    (preReadyFail 15) [] []
    rfl rfl rfl rfl rfl rfl rfl rfl rfl rfl rfl rfl rfl rfl

/-- C9 counterexample.
The claim partitions HTTP-200 bodies into: error fields present (fail with
the server's message), both `token` and `port` missing (fail as invalid
response), and "otherwise" return the carried pair.  A body carrying a port
but no token falls in the claim's "otherwise" branch, yet the code fails it
as invalid response: the claim as stated is false. -/
theorem connect_response_counterexample :
    ¬ (∀ r : ConnectionResponse, r.errorCode = none → r.errorMessage = none →
        ¬ (r.token = none ∧ r.port = none) →
        ∃ p t, handleConnResp r = .ok p t) := by
  intro h
  obtain ⟨p, t, hok⟩ :=
    h ⟨none, some 54321, none, none⟩ rfl rfl (by simp)
  simp [handleConnResp] at hok

/-- C9 as amended.
On an HTTP 200 response, `connect` fails with the server's message whenever
the decoded body has a non-nil `error_code` (rendered through
`ConnectionCode.String`) or, failing that, a non-nil `error_message`;
a body missing the token *or* the port (in particular one missing both)
fails as "invalid response"; otherwise — both present, neither error field
set — `connect` returns the `(port, token)` pair carried in the body. -/
theorem connect_response_policy (r : ConnectionResponse) :
    (∀ c, r.errorCode = some c →
      handleConnResp r = .err (serverErrorMsg (connectionCodeString c))) ∧
    (r.errorCode = none → ∀ m, r.errorMessage = some m →
      handleConnResp r = .err (serverErrorMsg m)) ∧
    (r.errorCode = none → r.errorMessage = none →
      (r.token = none ∨ r.port = none) →
      handleConnResp r = .err invalidResponseMsg) ∧
    (∀ p t, r.errorCode = none → r.errorMessage = none → r.port = some p →
      r.token = some t → handleConnResp r = .ok p t) := by
  obtain ⟨tok, prt, ec, em⟩ := r
  refine ⟨?_, ?_, ?_, ?_⟩
  · intro c hc
    cases hc
    rfl
  · intro hec m hm
    cases hec
    cases hm
    rfl
  · intro hec hem hmiss
    cases hec
    cases hem
    rcases hmiss with hmiss | hmiss
    · cases hmiss
      cases prt <;> rfl
    · cases hmiss
      cases tok <;> rfl
  · intro p t hec hem hp ht
    cases hec
    cases hem
    cases hp
    cases ht
    rfl

/-- Witness for C9 at the spec's concrete scenarios: a body with error code 2
fails as "server full" and a body carrying a token and port 54321 yields the
pair. -/
theorem connect_response_policy_witness :
    handleConnResp ⟨none, none, some 2, none⟩ =
      .err (serverErrorMsg (connectionCodeString 2)) ∧
    handleConnResp ⟨some [1, 2, 3, 4, 5, 6], some 54321, none, none⟩ =
      .ok 54321 [1, 2, 3, 4, 5, 6] :=
  ⟨(connect_response_policy ⟨none, none, some 2, none⟩).1 2 rfl,
   (connect_response_policy ⟨some [1, 2, 3, 4, 5, 6], some 54321, none, none⟩).2.2.2
     54321 [1, 2, 3, 4, 5, 6] rfl rfl rfl rfl⟩

end EIProxy
